import Mathlib

/-!
Verification of the delivery-window-service time-interval algebra.

This file is a shallow embedding, in Lean 4, of the core of the
`delivery_hours_service` Python code base:

* `domain/models/time.py` (`Time`, `TimeRange`),
* `domain/models/delivery_window.py` (`DayOfWeek`, `DeliveryWindow`,
  `WeeklyDeliveryWindow`),
* `infrastructure/converters/time_windows_converter.py`
  (`TimeWindowsConverter`), and
* `application/use_cases/get_venue_delivery_hours.py`
  (`GetVenueDeliveryHoursUseCase`).

Embedding conventions:

* The Python `Time` value stores `hours`/`minutes`, but every comparison,
  equality test and arithmetic operation in the code goes through the
  derived field `_minutes_since_midnight` (an integer in `[0, 1440)`).
  A valid `Time` is therefore isomorphic to a natural number below 1440,
  and we embed it as `Nat` carrying the bound as a side predicate.
* Constructors that `raise` in Python are embedded as `Option`- or
  `Except`-returning functions; `none` / `.error` models the raise.
* `TimeRange.merge` re-runs the `TimeRange` constructor, whose
  `InvalidDurationError` would propagate out of every caller, so it is
  embedded with an explicit `Except` error channel.  In
  `TimeRange.find_intersection` the only constructor call that the code
  does not wrap in `try/except` rebuilds an existing (hence valid) range
  from its own bounds, so that function is embedded as total.
-/

namespace DeliveryHours

/- A time of day is embedded as a `Nat`: the derived field
`Time._minutes_since_midnight` through which every comparison, equality
test and arithmetic operation on Python `Time` objects goes.  A value
produced by the Python constructor always lies below 1440.  (A plain `Nat`
rather than a type alias keeps the linear-arithmetic automation usable.) -/

/-- Minutes in a day (`MINUTES_IN_DAY` in `time.py`). -/
def MINUTES_IN_DAY : Nat := 1440

/-- Seconds in a day (`SECONDS_IN_DAY` in `time.py`). -/
def SECONDS_IN_DAY : Nat := 86400

/-- Minimum allowed duration of a `TimeRange`
(`MINIMUM_DURATION_MINUTES` in `time.py`). -/
def MINIMUM_DURATION_MINUTES : Nat := 30

/-- Embeds `Time.__post_init__` (validation) together with the derived
`_minutes_since_midnight` field: `Time(hours, minutes)` succeeds exactly
when `0 ≤ hours ≤ 23` and `0 ≤ minutes ≤ 59`, and the resulting value
compares by `hours * 60 + minutes`.  `none` models `InvalidTimeError`. -/
def Time.create (hours minutes : Int) : Option Nat :=
  if 0 ≤ hours ∧ hours ≤ 23 ∧ 0 ≤ minutes ∧ minutes ≤ 59 then
    some (hours.toNat * 60 + minutes.toNat)
  else
    none

/-- Embeds `Time.from_minutes`; `none` models `InvalidTimeError`. -/
def Time.from_minutes (minutes_since_midnight : Int) : Option Nat :=
  if 0 ≤ minutes_since_midnight ∧ minutes_since_midnight < 1440 then
    some minutes_since_midnight.toNat
  else
    none

/-- Embeds `Time.from_unix_seconds`: validates `0 ≤ s < 86400`, then
truncates to whole minutes.  `none` models `InvalidTimeError`. -/
def Time.from_unix_seconds (unix_seconds : Int) : Option Nat :=
  if 0 ≤ unix_seconds ∧ unix_seconds < 86400 then
    Time.from_minutes (unix_seconds / 60)
  else
    none

/-- Embeds the `TimeRange` dataclass: a start and an end time.  The Python
object also stores the derived fields `_is_overnight` and
`_duration_minutes`; both are functions of the two bounds and are embedded
as the functions `TimeRange.is_overnight` and `TimeRange.duration_minutes`
below. -/
structure TimeRange where
  start_time : Nat
  end_time : Nat
deriving DecidableEq, Repr

/-- Embeds the `_is_overnight` computation in `TimeRange.__post_init__`:
`start_time > end_time or start_time == end_time`, i.e. `end ≤ start`. -/
def TimeRange.is_overnight (r : TimeRange) : Bool :=
  r.end_time ≤ r.start_time

/-- Embeds `TimeRange._calculate_duration`: the forward distance from start
to end, wrapping through midnight for an overnight range. -/
def TimeRange.duration_minutes (r : TimeRange) : Nat :=
  if r.is_overnight then
    MINUTES_IN_DAY - r.start_time + r.end_time
  else
    r.end_time - r.start_time

/-- A `TimeRange` value the Python constructor can actually produce: both
bounds are valid times and the duration invariant checked in
`__post_init__` holds. -/
def TimeRange.Valid (r : TimeRange) : Prop :=
  r.start_time < 1440 ∧ r.end_time < 1440 ∧
    MINIMUM_DURATION_MINUTES ≤ r.duration_minutes

instance (r : TimeRange) : Decidable r.Valid := by
  unfold TimeRange.Valid; infer_instance

/-- Embeds the `TimeRange` constructor (`__post_init__`): construction
fails, with `InvalidDurationError`, exactly when the computed duration is
below `MINIMUM_DURATION_MINUTES`.  `none` models the raise. -/
def TimeRange.create (s e : Nat) : Option TimeRange :=
  let r : TimeRange := ⟨s, e⟩
  if MINIMUM_DURATION_MINUTES ≤ r.duration_minutes then some r else none

/-- Embeds `TimeRange.contains_time`. -/
def TimeRange.contains_time (r : TimeRange) (t : Nat) : Bool :=
  if r.is_overnight then
    r.start_time ≤ t || t ≤ r.end_time
  else
    r.start_time ≤ t && t ≤ r.end_time

/-- Embeds `TimeRange.overlaps_with`: a boundary point of one range falls
inside the other, or both ranges are overnight. -/
def TimeRange.overlaps_with (a b : TimeRange) : Bool :=
  a.contains_time b.start_time || a.contains_time b.end_time ||
    b.contains_time a.start_time || b.contains_time a.end_time ||
    (a.is_overnight && b.is_overnight)

/-- Embeds `TimeRange.is_adjacent_to`: only two non-overnight ranges can be
adjacent, when one's end equals the other's start. -/
def TimeRange.is_adjacent_to (a b : TimeRange) : Bool :=
  !a.is_overnight && !b.is_overnight &&
    (a.start_time == b.end_time || a.end_time == b.start_time)

deriving instance DecidableEq for Except

/-- Domain-level exceptions raised by the pure model types
(`time_exceptions.py`). -/
inductive DomainError where
  | invalidDuration
  | incompatibleDays
deriving DecidableEq, Repr

/-- Embeds `TimeRange.merge`.  The Python body re-invokes the `TimeRange`
constructor, whose `InvalidDurationError` is not caught anywhere in
`merge`'s callers, so each constructor call is embedded through
`TimeRange.create` with `.error` modelling an escaping exception.
`.ok none` is Python's `return None` (not overlapping nor adjacent). -/
def TimeRange.merge (a b : TimeRange) : Except DomainError (Option TimeRange) :=
  if !(a.overlaps_with b || a.is_adjacent_to b) then
    .ok none
  else if a.is_overnight || b.is_overnight then
    if (a.is_overnight && !b.is_overnight) ||
        (a.is_overnight && b.is_overnight &&
          b.duration_minutes ≤ a.duration_minutes) then
      match TimeRange.create a.start_time a.end_time with
      | some r => .ok (some r)
      | none => .error .invalidDuration
    else
      match TimeRange.create b.start_time b.end_time with
      | some r => .ok (some r)
      | none => .error .invalidDuration
  else
    match TimeRange.create (min a.start_time b.start_time)
        (max a.end_time b.end_time) with
    | some r => .ok (some r)
    | none => .error .invalidDuration

/-- Embeds `TimeRange.find_intersection`.  The two overnight branches
rebuild a range from the bounds of one of the two inputs (which the Python
runtime guarantees to be valid ranges), so they are embedded as returning
that input directly; the non-overnight branch wraps its constructor call in
`try/except InvalidDurationError`, embedded by `TimeRange.create` with the
`none` fallback. -/
def TimeRange.find_intersection (a b : TimeRange) : Option TimeRange :=
  if !a.overlaps_with b then
    none
  else if a.is_overnight && b.is_overnight then
    some (if a.duration_minutes ≤ b.duration_minutes then a else b)
  else if a.is_overnight then
    if a.contains_time b.start_time && a.contains_time b.end_time then
      some b
    else
      none
  else if b.is_overnight then
    if b.contains_time a.start_time && b.contains_time a.end_time then
      some a
    else
      none
  else
    TimeRange.create (max a.start_time b.start_time)
      (min a.end_time b.end_time)

/-- Embeds the `DayOfWeek` enum (`delivery_window.py`), Monday=0 .. Sunday=6. -/
inductive DayOfWeek where
  | monday
  | tuesday
  | wednesday
  | thursday
  | friday
  | saturday
  | sunday
deriving DecidableEq, Repr

/-- Ordinal value of a day, as in the Python `IntEnum`. -/
def DayOfWeek.toNat : DayOfWeek → Nat
  | .monday => 0
  | .tuesday => 1
  | .wednesday => 2
  | .thursday => 3
  | .friday => 4
  | .saturday => 5
  | .sunday => 6

/-- The list `list(DayOfWeek)`: all seven days in ordinal order. -/
def dayEnums : List DayOfWeek :=
  [.monday, .tuesday, .wednesday, .thursday, .friday, .saturday, .sunday]

/-- Stable insertion of a range into an already-processed prefix, placing it
after every element whose start time is not larger.  Folding this over a
list is a stable sort by start time, which is exactly what
`sorted(self.windows, key=lambda w: w.start_time)` computes in
`DeliveryWindow._process_windows`. -/
def insertByStart (w : TimeRange) : List TimeRange → List TimeRange
  | [] => [w]
  | x :: xs =>
    if x.start_time ≤ w.start_time then x :: insertByStart w xs
    else w :: x :: xs

/-- Stable sort by start time, embedding Python's stable `sorted` with key
`w.start_time`. -/
def sortByStart (l : List TimeRange) : List TimeRange :=
  l.foldl (fun acc w => insertByStart w acc) []

/-- The left-to-right merge sweep in `DeliveryWindow._process_windows`:
repeatedly merge the running `current` range with the next sorted range;
when `merge` returns `None`, commit `current` and advance.  An
`InvalidDurationError` escaping `merge` propagates. -/
def mergeSweep (current : TimeRange) :
    List TimeRange → Except DomainError (List TimeRange)
  | [] => .ok [current]
  | next :: rest =>
    match current.merge next with
    | .error e => .error e
    | .ok (some merged) => mergeSweep merged rest
    | .ok none => do
      let tail ← mergeSweep next rest
      .ok (current :: tail)

/-- Embeds `DeliveryWindow._process_windows`: sort by start time, then run
the merge sweep.  The empty input short-circuits to the empty output. -/
def processWindows (l : List TimeRange) : Except DomainError (List TimeRange) :=
  match sortByStart l with
  | [] => .ok []
  | w :: ws => mergeSweep w ws

/-- Embeds the `DeliveryWindow` dataclass: a day plus the (already
processed) list of windows. -/
structure DeliveryWindow where
  day : DayOfWeek
  windows : List TimeRange
deriving DecidableEq, Repr

/-- Embeds the `DeliveryWindow` constructor, whose `__post_init__` replaces
the given windows with the processed (sorted and swept) list.  `.error`
models an `InvalidDurationError` escaping from `merge`. -/
def DeliveryWindow.make (day : DayOfWeek) (windows : List TimeRange) :
    Except DomainError DeliveryWindow := do
  let processed ← processWindows windows
  .ok ⟨day, processed⟩

/-- Embeds `DeliveryWindow.closed`. -/
def DeliveryWindow.closed (day : DayOfWeek) : DeliveryWindow := ⟨day, []⟩

/-- Embeds the `DeliveryWindow.is_closed` property. -/
def DeliveryWindow.is_closed (dw : DeliveryWindow) : Bool :=
  dw.windows.isEmpty

/-- The all-pairs intersection loop in `DeliveryWindow.intersect_with`:
for every `window1` of the first list and `window2` of the second, collect
the non-`None` results of `find_intersection`, in loop order. -/
def allPairsIntersections (w1s w2s : List TimeRange) : List TimeRange :=
  w1s.flatMap (fun w1 => w2s.filterMap (fun w2 => w1.find_intersection w2))

/-- Embeds `DeliveryWindow.intersect_with`: raises `IncompatibleDaysError`
for different days; a closed side yields a closed result; otherwise the
all-pairs intersections are fed back through the `DeliveryWindow`
constructor (re-normalizing them). -/
def DeliveryWindow.intersect_with (a b : DeliveryWindow) :
    Except DomainError DeliveryWindow :=
  if a.day ≠ b.day then
    .error .incompatibleDays
  else if a.is_closed || b.is_closed then
    .ok ⟨a.day, []⟩
  else
    DeliveryWindow.make a.day (allPairsIntersections a.windows b.windows)

/-- Embeds the `WeeklyDeliveryWindow` dataclass.  Its `__post_init__`
completes the schedule so that every one of the seven days is present; we
embed the completed schedule as a total function from days. -/
structure WeeklyDeliveryWindow where
  schedule : DayOfWeek → DeliveryWindow

/-- Embeds the `WeeklyDeliveryWindow` constructor applied to a partial
mapping given as an association list: a day missing from the input defaults
to a closed window (`schedule.get(day, DeliveryWindow.closed(day))`). -/
def WeeklyDeliveryWindow.make (entries : List (DayOfWeek × DeliveryWindow)) :
    WeeklyDeliveryWindow :=
  ⟨fun day =>
    match entries.find? (fun p => p.1 = day) with
    | some p => p.2
    | none => DeliveryWindow.closed day⟩

/-- Embeds `WeeklyDeliveryWindow.empty`: every day closed. -/
def WeeklyDeliveryWindow.empty : WeeklyDeliveryWindow :=
  ⟨fun day => DeliveryWindow.closed day⟩

/-- Embeds `WeeklyDeliveryWindow.intersect_with`: the seven days are
intersected independently, in ordinal order; an exception raised on any
day propagates (to be caught by the use case). -/
def WeeklyDeliveryWindow.intersect_with (a b : WeeklyDeliveryWindow) :
    Except DomainError WeeklyDeliveryWindow := do
  let mon ← (a.schedule .monday).intersect_with (b.schedule .monday)
  let tue ← (a.schedule .tuesday).intersect_with (b.schedule .tuesday)
  let wed ← (a.schedule .wednesday).intersect_with (b.schedule .wednesday)
  let thu ← (a.schedule .thursday).intersect_with (b.schedule .thursday)
  let fri ← (a.schedule .friday).intersect_with (b.schedule .friday)
  let sat ← (a.schedule .saturday).intersect_with (b.schedule .saturday)
  let sun ← (a.schedule .sunday).intersect_with (b.schedule .sunday)
  .ok ⟨fun day =>
    match day with
    | .monday => mon
    | .tuesday => tue
    | .wednesday => wed
    | .thursday => thu
    | .friday => fri
    | .saturday => sat
    | .sunday => sun⟩

/-- ASCII lower-casing of a character, the relevant fragment of Python's
`str.lower` (day names are matched case-insensitively via `.lower()`). -/
def lowerChar (c : Char) : Char :=
  if 'A' ≤ c ∧ c ≤ 'Z' then Char.ofNat (c.toNat + 32) else c

/-- ASCII lower-casing of a string, embedding `day_name.lower()`. -/
def lowerString (s : String) : String := ⟨s.data.map lowerChar⟩

/-- ASCII upper-casing of a character, the relevant fragment of Python's
`str.upper` (used for error codes such as `VENUE_NOT_FOUND`). -/
def upperChar (c : Char) : Char :=
  if 'a' ≤ c ∧ c ≤ 'z' then Char.ofNat (c.toNat - 32) else c

/-- ASCII upper-casing of a string, embedding `service_type.upper()`. -/
def upperString (s : String) : String := ⟨s.data.map upperChar⟩

/-- An event dict of the raw upstream format (`{"open": s}` or
`{"close": s}`).  The converter only ever queries the keys `"open"` and
`"close"`, so a dict is observably equivalent to this pair of optional
integers (a dict may carry both keys). -/
structure Event where
  openS : Option Int
  closeS : Option Int
deriving DecidableEq, Repr

/-- Embeds `TimeWindowsConverter.get_day_mapping` (lower-case day name to
enum). -/
def dayMapping (s : String) : Option DayOfWeek :=
  if s == "monday" then some .monday
  else if s == "tuesday" then some .tuesday
  else if s == "wednesday" then some .wednesday
  else if s == "thursday" then some .thursday
  else if s == "friday" then some .friday
  else if s == "saturday" then some .saturday
  else if s == "sunday" then some .sunday
  else none

/-- Embeds `TimeWindowsConverter.get_day_name_mapping` (enum to lower-case
day name). -/
def dayName : DayOfWeek → String
  | .monday => "monday"
  | .tuesday => "tuesday"
  | .wednesday => "wednesday"
  | .thursday => "thursday"
  | .friday => "friday"
  | .saturday => "saturday"
  | .sunday => "sunday"

/-- Embeds `day_enums[(i + 1) % len(day_enums)]`: the cyclic successor of a
day. -/
def nextDay : DayOfWeek → DayOfWeek
  | .monday => .tuesday
  | .tuesday => .wednesday
  | .wednesday => .thursday
  | .thursday => .friday
  | .friday => .saturday
  | .saturday => .sunday
  | .sunday => .monday

/-- Builds a `TimeRange` from raw open/close seconds exactly as the
converter's guarded blocks do: `Time.from_unix_seconds` on both, then the
`TimeRange` constructor.  `none` models any exception from those calls
(always caught at the call sites). -/
def mkRange (o c : Int) : Option TimeRange :=
  match Time.from_unix_seconds o with
  | none => none
  | some st =>
    match Time.from_unix_seconds c with
    | none => none
    | some en => TimeRange.create st en

/-- The inner scan of `process_day_windows`: starting from the index list
`js` (the Python `range(i + 1, len(time_windows))`), find the first
not-yet-processed event carrying a `"close"` with `close ≥ open`; closes
below the open are skipped (deferred to overnight handling). -/
def findCloseIdx (tws : List Event) (processed : List Nat) (o : Int) :
    List Nat → Option (Nat × Int)
  | [] => none
  | j :: js =>
    if j ∈ processed then findCloseIdx tws processed o js
    else
      match tws[j]? with
      | none => findCloseIdx tws processed o js
      | some ev =>
        match ev.closeS with
        | none => findCloseIdx tws processed o js
        | some c =>
          if c < o then findCloseIdx tws processed o js
          else some (j, c)

/-- The outer loop of `process_day_windows` over event indices, carrying
the `processed_indices` set and the accumulated `time_ranges`.  A failed
`TimeRange` construction (the `except` branch) still marks both indices as
processed and produces no range. -/
def processDayAux (tws : List Event) :
    List Nat → List Nat → List TimeRange → List TimeRange
  | [], _processed, acc => acc
  | i :: is, processed, acc =>
    if i ∈ processed then processDayAux tws is processed acc
    else
      match tws[i]? with
      | none => processDayAux tws is processed acc
      | some ev =>
        match ev.openS with
        | none => processDayAux tws is processed acc
        | some o =>
          match findCloseIdx tws processed o
              (List.range' (i + 1) (tws.length - (i + 1))) with
          | none => processDayAux tws is processed acc
          | some (j, c) =>
            match mkRange o c with
            | some tr => processDayAux tws is (i :: j :: processed) (acc ++ [tr])
            | none => processDayAux tws is (i :: j :: processed) acc

/-- Embeds `TimeWindowsConverter.process_day_windows`. -/
def process_day_windows (tws : List Event) : List TimeRange :=
  processDayAux tws (List.range tws.length) [] []

/-- Embeds `data.get(day_name, [])` on the raw payload, viewed as an
association list (a Python dict has unique keys and preserves insertion
order). -/
def lookupData (data : List (String × List Event)) (k : String) : List Event :=
  match data.find? (fun p => p.1 == k) with
  | some p => p.2
  | none => []

/-- Pointwise update of a completed schedule
(`schedule[day_enum] = ...`). -/
def updSchedule (sched : DayOfWeek → DeliveryWindow) (d : DayOfWeek)
    (dw : DeliveryWindow) : DayOfWeek → DeliveryWindow :=
  fun x => if x = d then dw else sched x

/-- The first loop of `handle_all_days`: for each payload entry in
insertion order, resolve the day name (unknown names are logged and
skipped), convert the day's events, and, when any window came out, build
the day's `DeliveryWindow`.  This constructor call is not wrapped in
`try/except`, so its failure propagates as `.error`. -/
def handleNamedDays :
    List (String × List Event) → (DayOfWeek → DeliveryWindow) →
      Except DomainError (DayOfWeek → DeliveryWindow)
  | [], sched => .ok sched
  | (day_name, tws) :: rest, sched =>
    match dayMapping (lowerString day_name) with
    | none => handleNamedDays rest sched
    | some d =>
      let ws := process_day_windows tws
      if ws.isEmpty then handleNamedDays rest sched
      else
        match DeliveryWindow.make d ws with
        | .error e => .error e
        | .ok dw => handleNamedDays rest (updSchedule sched d dw)

/-- One step of the overnight-stitching loop of `handle_all_days` for day
`day`: if the day's raw event list ends with an `"open"` and the cyclic
next day's list begins with a `"close"` not yet consumed, synthesize the
overnight range and rebuild the day's window.  The whole block sits in a
`try/except`, so every failure leaves schedule and used-set unchanged. -/
def stitchOne (data : List (String × List Event))
    (sched : DayOfWeek → DeliveryWindow) (used : List (DayOfWeek × Int))
    (day : DayOfWeek) :
    (DayOfWeek → DeliveryWindow) × List (DayOfWeek × Int) :=
  let next := nextDay day
  let cur_events := lookupData data (dayName day)
  let next_events := lookupData data (dayName next)
  match cur_events.getLast?, next_events.head? with
  | some last_ev, some first_ev =>
    match last_ev.openS, first_ev.closeS with
    | some o, some c =>
      if (next, c) ∈ used then (sched, used)
      else
        match mkRange o c with
        | none => (sched, used)
        | some tr =>
          match DeliveryWindow.make day ((sched day).windows ++ [tr]) with
          | .error _ => (sched, used)
          | .ok dw => (updSchedule sched day dw, (next, c) :: used)
    | _, _ => (sched, used)
  | _, _ => (sched, used)

/-- The overnight-stitching loop over the seven days in ordinal order,
starting from an empty used-set. -/
def stitchAll (data : List (String × List Event))
    (sched : DayOfWeek → DeliveryWindow) :
    (DayOfWeek → DeliveryWindow) × List (DayOfWeek × Int) :=
  dayEnums.foldl (fun p day => stitchOne data p.1 p.2 day) (sched, [])

/-- Embeds `TimeWindowsConverter.handle_all_days`. -/
def handle_all_days (data : List (String × List Event)) :
    Except DomainError (DayOfWeek → DeliveryWindow) :=
  match handleNamedDays data (fun d => DeliveryWindow.closed d) with
  | .error e => .error e
  | .ok sched => .ok (stitchAll data sched).1

/-- Embeds `TimeWindowsConverter.convert_to_weekly_delivery_window`. -/
def convert_to_weekly_delivery_window (data : List (String × List Event)) :
    Except DomainError WeeklyDeliveryWindow :=
  match handle_all_days data with
  | .error e => .error e
  | .ok sched => .ok ⟨sched⟩

/-- Embeds `ErrorSeverity` (`delivery_result.py`). -/
inductive ErrorSeverity where
  | warning
  | error
deriving DecidableEq, Repr

/-- Embeds `ErrorSource` (`delivery_result.py`). -/
inductive ErrorSource where
  | venue_service
  | courier_service
  | domain_logic
  | unknown
deriving DecidableEq, Repr

/-- Embeds `ServiceError` (`delivery_result.py`); the free-form `details`
dict carries no control flow and is omitted. -/
structure ServiceError where
  code : String
  source : ErrorSource
  severity : ErrorSeverity
deriving DecidableEq, Repr

/-- Embeds `DeliveryHoursResult`: the computed window, the accumulated
error list, and the metadata dict (whose only key in the use case is
`"service_statuses"`, mapping to a dict of per-source status strings). -/
structure DeliveryHoursResult where
  delivery_window : WeeklyDeliveryWindow
  errors : List ServiceError
  metadata : List (String × List (String × String))

/-- The observable ways an awaited upstream task can finish, as
discriminated by the `except` clauses of
`GetVenueDeliveryHoursUseCase._execute_task_safely`: a successful
`WeeklyDeliveryWindow`, a `CircuitBreakerError`, an `ApiRequestError` with
a status code, or any other exception. -/
inductive TaskOutcome where
  | success (w : WeeklyDeliveryWindow)
  | circuitBreakerOpen
  | apiRequestFailure (status_code : Nat)
  | unexpectedFailure

/-- Embeds `GetVenueDeliveryHoursUseCase._execute_task_safely`: turns a
task outcome into an optional schedule while appending to the error list
and to the `service_statuses` dict.  A 404 `ApiRequestError` degrades to an
empty schedule with a warning; every other failure yields `none` with an
error-severity entry.  Every branch returns: no exception escapes. -/
def executeTaskSafely (outcome : TaskOutcome) (service_type : String)
    (source : ErrorSource) (errors : List ServiceError)
    (statuses : List (String × String)) :
    Option WeeklyDeliveryWindow × List ServiceError × List (String × String) :=
  let key := service_type ++ "_service"
  match outcome with
  | .success w => (some w, errors, statuses ++ [(key, "success")])
  | .circuitBreakerOpen =>
    (none,
      errors ++ [⟨upperString service_type ++ "_SERVICE_UNAVAILABLE", source,
        .error⟩],
      statuses ++ [(key, "circuit_open")])
  | .apiRequestFailure status_code =>
    if status_code = 404 then
      (some WeeklyDeliveryWindow.empty,
        errors ++ [⟨upperString service_type ++ "_NOT_FOUND", source,
          .warning⟩],
        statuses ++ [(key, "not_found")])
    else
      (none,
        errors ++ [⟨upperString service_type ++ "_SERVICE_ERROR", source,
          .error⟩],
        statuses ++ [(key, "api_error_" ++ toString status_code)])
  | .unexpectedFailure =>
    (none,
      errors ++ [⟨upperString service_type ++ "_SERVICE_ERROR", source,
        .error⟩],
      statuses ++ [(key, "error")])

/-- The schedule contribution of a task outcome (the first component of
`executeTaskSafely`), for stating the use-case theorems. -/
def taskWindow : TaskOutcome → Option WeeklyDeliveryWindow
  | .success w => some w
  | .apiRequestFailure status_code =>
    if status_code = 404 then some WeeklyDeliveryWindow.empty else none
  | .circuitBreakerOpen => none
  | .unexpectedFailure => none

/-- Embeds `GetVenueDeliveryHoursUseCase.execute`, parameterized by how the
two awaited upstream tasks finished.  Mirrors the code path for path: both
sides are always awaited (venue first) through `_execute_task_safely`; a
double failure, a single missing side, and an exception from the week-level
intersection each return early with the empty window and no metadata; only
the fully successful path attaches the `service_statuses` metadata. -/
def execute (venue courier : TaskOutcome) : DeliveryHoursResult :=
  let v := executeTaskSafely venue "venue" .venue_service [] []
  let c := executeTaskSafely courier "courier" .courier_service v.2.1 v.2.2
  match v.1, c.1 with
  | none, none => ⟨WeeklyDeliveryWindow.empty, c.2.1, []⟩
  | none, some _ =>
    ⟨WeeklyDeliveryWindow.empty,
      c.2.1 ++ [⟨"MISSING_VENUE_HOURS", .venue_service, .error⟩], []⟩
  | some _, none =>
    ⟨WeeklyDeliveryWindow.empty,
      c.2.1 ++ [⟨"MISSING_COURIER_HOURS", .courier_service, .error⟩], []⟩
  | some vw, some cw =>
    match vw.intersect_with cw with
    | .error _ =>
      ⟨WeeklyDeliveryWindow.empty,
        c.2.1 ++ [⟨"INTERSECTION_ERROR", .domain_logic, .error⟩], []⟩
    | .ok dw => ⟨dw, c.2.1, [("service_statuses", c.2.2)]⟩

/-- The normalization invariant the spec asserts for a constructed
`DeliveryWindow`'s list: sorted by start time, and pairwise neither
overlapping nor adjacent. -/
def NormalizedWindows (l : List TimeRange) : Prop :=
  l.Pairwise (fun a b => a.start_time ≤ b.start_time) ∧
  l.Pairwise (fun a b =>
    a.overlaps_with b = false ∧ a.is_adjacent_to b = false)

instance (l : List TimeRange) : Decidable (NormalizedWindows l) := by
  unfold NormalizedWindows; infer_instance

/-! Helper lemmas about the `TimeRange` algebra. -/

theorem is_overnight_false_iff (r : TimeRange) :
    r.is_overnight = false ↔ r.start_time < r.end_time := by
  simp [TimeRange.is_overnight]

theorem duration_of_regular (r : TimeRange) (h : r.is_overnight = false) :
    r.duration_minutes = r.end_time - r.start_time := by
  simp [TimeRange.duration_minutes, h]

theorem create_self (a : TimeRange) (ha : a.Valid) :
    TimeRange.create a.start_time a.end_time = some a := by
  show (if MINIMUM_DURATION_MINUTES ≤
      TimeRange.duration_minutes ⟨a.start_time, a.end_time⟩ then
      some (⟨a.start_time, a.end_time⟩ : TimeRange) else none) = some a
  rw [if_pos ha.2.2]

theorem contains_start_self (a : TimeRange) :
    a.contains_time a.start_time = true := by
  unfold TimeRange.contains_time
  cases hh : a.is_overnight
  · have := (is_overnight_false_iff a).mp hh
    simp [hh]
    omega
  · simp [hh]

theorem overlaps_self (a : TimeRange) : a.overlaps_with a = true := by
  simp [TimeRange.overlaps_with, contains_start_self a]

theorem overlaps_symm (a b : TimeRange) :
    a.overlaps_with b = b.overlaps_with a := by
  cases h1 : a.contains_time b.start_time <;>
    cases h2 : a.contains_time b.end_time <;>
    cases h3 : b.contains_time a.start_time <;>
    cases h4 : b.contains_time a.end_time <;>
    cases h5 : a.is_overnight <;>
    cases h6 : b.is_overnight <;>
    simp [TimeRange.overlaps_with, h1, h2, h3, h4, h5, h6]

theorem create_min_max (a b : TimeRange) (ha : a.Valid) (hb : b.Valid)
    (hna : a.is_overnight = false) (hnb : b.is_overnight = false) :
    TimeRange.create (min a.start_time b.start_time)
        (max a.end_time b.end_time) =
      some ⟨min a.start_time b.start_time, max a.end_time b.end_time⟩ := by
  have h1 := (is_overnight_false_iff a).mp hna
  have h2 := (is_overnight_false_iff b).mp hnb
  have hda : 30 ≤ a.end_time - a.start_time := by
    have h := ha.2.2
    rw [duration_of_regular a hna] at h
    exact h
  have hno : (⟨min a.start_time b.start_time,
      max a.end_time b.end_time⟩ : TimeRange).is_overnight = false := by
    rw [is_overnight_false_iff]
    show min a.start_time b.start_time < max a.end_time b.end_time
    omega
  have hdur : MINIMUM_DURATION_MINUTES ≤ TimeRange.duration_minutes
      ⟨min a.start_time b.start_time, max a.end_time b.end_time⟩ := by
    rw [duration_of_regular _ hno]
    show MINIMUM_DURATION_MINUTES ≤
      max a.end_time b.end_time - min a.start_time b.start_time
    unfold MINIMUM_DURATION_MINUTES
    omega
  unfold TimeRange.create
  rw [if_pos hdur]

/-- C5: constructing a `TimeRange` fails with `InvalidDuration` exactly when
the wrap-aware duration is below 30 minutes; equal bounds give a
successfully constructed overnight full-day range; `(14:00, 14:29)` fails,
`(14:00, 14:30)` succeeds, and `(22:00, 02:00)` is overnight with duration
240. -/
theorem timeRange_minimum_duration_spec :
    (∀ s e : Nat, s < 1440 → e < 1440 →
      ((TimeRange.create s e = none ↔
          TimeRange.duration_minutes ⟨s, e⟩ < 30) ∧
        (s = e → TimeRange.is_overnight ⟨s, e⟩ = true ∧
          TimeRange.duration_minutes ⟨s, e⟩ = 1440 ∧
          TimeRange.create s e = some ⟨s, e⟩))) ∧
    TimeRange.create 840 869 = none ∧
    TimeRange.create 840 870 = some ⟨840, 870⟩ ∧
    TimeRange.is_overnight ⟨1320, 120⟩ = true ∧
    TimeRange.duration_minutes ⟨1320, 120⟩ = 240 ∧
    TimeRange.create 1320 120 = some ⟨1320, 120⟩ := by
  refine ⟨?_, by decide, by decide, by decide, by decide, by decide⟩
  intro s e hs he
  constructor
  · unfold TimeRange.create
    simp only [MINIMUM_DURATION_MINUTES]
    split
    · simp
      omega
    · simp
      omega
  · intro h
    subst h
    have hdur : TimeRange.duration_minutes ⟨s, s⟩ = 1440 := by
      simp [TimeRange.duration_minutes, TimeRange.is_overnight, MINUTES_IN_DAY]
      omega
    refine ⟨by simp [TimeRange.is_overnight], hdur, ?_⟩
    unfold TimeRange.create
    rw [if_pos]
    rw [hdur]
    unfold MINIMUM_DURATION_MINUTES
    omega

/-- Witness for `timeRange_minimum_duration_spec` at times 10:00 and
14:00. -/
theorem timeRange_minimum_duration_spec_witness :
    (TimeRange.create 600 840 = none ↔
      TimeRange.duration_minutes ⟨600, 840⟩ < 30) ∧
    (600 = 840 → TimeRange.is_overnight ⟨600, 840⟩ = true ∧
      TimeRange.duration_minutes ⟨600, 840⟩ = 1440 ∧
      TimeRange.create 600 840 = some ⟨600, 840⟩) :=
  timeRange_minimum_duration_spec.1 600 840 (by decide) (by decide)

/-- Case analysis of `TimeRange.merge` on valid ranges (shared helper). -/
theorem merge_cases (a b : TimeRange) (ha : a.Valid) (hb : b.Valid) :
    (a.merge b = .ok none ↔
      a.overlaps_with b = false ∧ a.is_adjacent_to b = false) ∧
    (a.overlaps_with b = true ∨ a.is_adjacent_to b = true →
      (a.is_overnight = true → b.is_overnight = false →
        a.merge b = .ok (some a)) ∧
      (a.is_overnight = false → b.is_overnight = true →
        a.merge b = .ok (some b)) ∧
      (a.is_overnight = true → b.is_overnight = true →
        a.merge b = .ok (some
          (if b.duration_minutes ≤ a.duration_minutes then a else b))) ∧
      (a.is_overnight = false → b.is_overnight = false →
        a.merge b = .ok (some
          ⟨min a.start_time b.start_time, max a.end_time b.end_time⟩))) := by
  have hsome : a.overlaps_with b = true ∨ a.is_adjacent_to b = true →
      (a.is_overnight = true → b.is_overnight = false →
        a.merge b = .ok (some a)) ∧
      (a.is_overnight = false → b.is_overnight = true →
        a.merge b = .ok (some b)) ∧
      (a.is_overnight = true → b.is_overnight = true →
        a.merge b = .ok (some
          (if b.duration_minutes ≤ a.duration_minutes then a else b))) ∧
      (a.is_overnight = false → b.is_overnight = false →
        a.merge b = .ok (some
          ⟨min a.start_time b.start_time, max a.end_time b.end_time⟩)) := by
    intro hor
    have hcond : (a.overlaps_with b || a.is_adjacent_to b) = true := by
      rcases hor with h | h <;> simp [h]
    refine ⟨?_, ?_, ?_, ?_⟩
    · intro hoa hob
      simp [TimeRange.merge, hcond, hoa, hob, create_self a ha]
    · intro hoa hob
      simp [TimeRange.merge, hcond, hoa, hob, create_self b hb]
    · intro hoa hob
      by_cases hd : b.duration_minutes ≤ a.duration_minutes
      · simp [TimeRange.merge, hcond, hoa, hob, hd, create_self a ha]
      · simp [TimeRange.merge, hcond, hoa, hob, hd, create_self b hb]
    · intro hoa hob
      simp [TimeRange.merge, hcond, hoa, hob,
        create_min_max a b ha hb hoa hob]
  refine ⟨⟨?_, ?_⟩, hsome⟩
  · intro h
    by_contra hc
    have hor : a.overlaps_with b = true ∨ a.is_adjacent_to b = true := by
      cases h1 : a.overlaps_with b
      · cases h2 : a.is_adjacent_to b
        · exact absurd ⟨h1, h2⟩ hc
        · exact Or.inr rfl
      · exact Or.inl rfl
    obtain ⟨p1, p2, p3, p4⟩ := hsome hor
    cases hoa : a.is_overnight <;> cases hob : b.is_overnight
    · rw [p4 hoa hob] at h
      simp at h
    · rw [p2 hoa hob] at h
      simp at h
    · rw [p1 hoa hob] at h
      simp at h
    · rw [p3 hoa hob] at h
      simp at h
  · intro ⟨h1, h2⟩
    simp [TimeRange.merge, h1, h2]

/-- C4: `merge` returns `None` exactly when the two ranges neither overlap
nor are adjacent; otherwise it returns the overnight range's bounds when
exactly one is overnight, the bounds of the greater-duration one (the
receiver on a duration tie) when both are overnight, and the envelope from
the smaller start to the larger end when neither is. -/
theorem merge_spec (a b : TimeRange) (ha : a.Valid) (hb : b.Valid) :
    (a.merge b = .ok none ↔
      a.overlaps_with b = false ∧ a.is_adjacent_to b = false) ∧
    (a.overlaps_with b = true ∨ a.is_adjacent_to b = true →
      (a.is_overnight = true → b.is_overnight = false →
        a.merge b = .ok (some a)) ∧
      (a.is_overnight = false → b.is_overnight = true →
        a.merge b = .ok (some b)) ∧
      (a.is_overnight = true → b.is_overnight = true →
        a.merge b = .ok (some
          (if b.duration_minutes ≤ a.duration_minutes then a else b))) ∧
      (a.is_overnight = false → b.is_overnight = false →
        a.merge b = .ok (some
          ⟨min a.start_time b.start_time, max a.end_time b.end_time⟩))) :=
  merge_cases a b ha hb

/-- Witness for `merge_spec` at the overlapping regular ranges 10:00–11:40
and 10:50–13:20. -/
theorem merge_spec_witness :
    (TimeRange.merge ⟨600, 700⟩ ⟨650, 800⟩ = .ok none ↔
      TimeRange.overlaps_with ⟨600, 700⟩ ⟨650, 800⟩ = false ∧
      TimeRange.is_adjacent_to ⟨600, 700⟩ ⟨650, 800⟩ = false) ∧
    (TimeRange.overlaps_with ⟨600, 700⟩ ⟨650, 800⟩ = true ∨
      TimeRange.is_adjacent_to ⟨600, 700⟩ ⟨650, 800⟩ = true →
      (TimeRange.is_overnight ⟨600, 700⟩ = true →
        TimeRange.is_overnight ⟨650, 800⟩ = false →
        TimeRange.merge ⟨600, 700⟩ ⟨650, 800⟩ = .ok (some ⟨600, 700⟩)) ∧
      (TimeRange.is_overnight ⟨600, 700⟩ = false →
        TimeRange.is_overnight ⟨650, 800⟩ = true →
        TimeRange.merge ⟨600, 700⟩ ⟨650, 800⟩ = .ok (some ⟨650, 800⟩)) ∧
      (TimeRange.is_overnight ⟨600, 700⟩ = true →
        TimeRange.is_overnight ⟨650, 800⟩ = true →
        TimeRange.merge ⟨600, 700⟩ ⟨650, 800⟩ = .ok (some
          (if TimeRange.duration_minutes ⟨650, 800⟩ ≤
              TimeRange.duration_minutes ⟨600, 700⟩ then
            (⟨600, 700⟩ : TimeRange) else ⟨650, 800⟩))) ∧
      (TimeRange.is_overnight ⟨600, 700⟩ = false →
        TimeRange.is_overnight ⟨650, 800⟩ = false →
        TimeRange.merge ⟨600, 700⟩ ⟨650, 800⟩ = .ok (some
          ⟨min 600 650, max 700 800⟩))) :=
  merge_spec ⟨600, 700⟩ ⟨650, 800⟩ (by decide) (by decide)

/-- C2 counterexample: for the valid overnight ranges 22:00–02:00 and
23:00–06:00, `find_intersection` returns the smaller-duration range
22:00–02:00, yet that range contains 22:30 while 23:00–06:00 does not, so
the returned range is not contained in both inputs. -/
theorem find_intersection_overnight_not_contained_cex :
    TimeRange.Valid ⟨1320, 120⟩ ∧ TimeRange.Valid ⟨1380, 360⟩ ∧
    TimeRange.is_overnight ⟨1320, 120⟩ = true ∧
    TimeRange.is_overnight ⟨1380, 360⟩ = true ∧
    TimeRange.find_intersection ⟨1320, 120⟩ ⟨1380, 360⟩ =
      some ⟨1320, 120⟩ ∧
    TimeRange.contains_time ⟨1320, 120⟩ 1350 = true ∧
    TimeRange.contains_time ⟨1380, 360⟩ 1350 = false := by decide

/-- C2 (amended): for two overnight ranges, `find_intersection` returns the
bounds of whichever range has the smaller duration (the receiver's bounds
on a duration tie); the returned range's duration is no larger than either
input's, but its instants need not be contained in both inputs. -/
theorem find_intersection_both_overnight (a b : TimeRange)
    (hoa : a.is_overnight = true) (hob : b.is_overnight = true) :
    a.find_intersection b =
      some (if a.duration_minutes ≤ b.duration_minutes then a else b) ∧
    ∀ r, a.find_intersection b = some r →
      r.duration_minutes ≤ a.duration_minutes ∧
      r.duration_minutes ≤ b.duration_minutes := by
  have hov : a.overlaps_with b = true := by
    simp [TimeRange.overlaps_with, hoa, hob]
  have heq : a.find_intersection b =
      some (if a.duration_minutes ≤ b.duration_minutes then a else b) := by
    simp [TimeRange.find_intersection, hov, hoa, hob]
  refine ⟨heq, ?_⟩
  intro r hr
  rw [heq] at hr
  by_cases hd : a.duration_minutes ≤ b.duration_minutes
  · rw [if_pos hd] at hr
    cases hr
    exact ⟨le_refl _, hd⟩
  · rw [if_neg hd] at hr
    cases hr
    exact ⟨le_of_not_le hd, le_refl _⟩

/-- Witness for `find_intersection_both_overnight` at the overnight ranges
23:30–05:00 and 21:00–07:00. -/
theorem find_intersection_both_overnight_witness :
    TimeRange.find_intersection ⟨1410, 300⟩ ⟨1260, 420⟩ =
      some (if TimeRange.duration_minutes ⟨1410, 300⟩ ≤
          TimeRange.duration_minutes ⟨1260, 420⟩ then
        (⟨1410, 300⟩ : TimeRange) else ⟨1260, 420⟩) ∧
    ∀ r, TimeRange.find_intersection ⟨1410, 300⟩ ⟨1260, 420⟩ = some r →
      r.duration_minutes ≤ TimeRange.duration_minutes ⟨1410, 300⟩ ∧
      r.duration_minutes ≤ TimeRange.duration_minutes ⟨1260, 420⟩ :=
  find_intersection_both_overnight ⟨1410, 300⟩ ⟨1260, 420⟩
    (by decide) (by decide)

/-- C6: at the touching regular ranges 14:00–15:00 and 15:00–16:00 (overlap
span zero, hence below the 30-minute minimum) the all-regular branch of
`find_intersection` builds the degenerate range 15:00–15:00, which the
constructor accepts as a full-day overnight range of duration 1440 instead
of rejecting, so `some` is returned where the specified behaviour is
`None`. -/
theorem find_intersection_touching_regular_ranges_bug :
    TimeRange.Valid ⟨840, 900⟩ ∧ TimeRange.Valid ⟨900, 960⟩ ∧
    TimeRange.is_overnight ⟨840, 900⟩ = false ∧
    TimeRange.is_overnight ⟨900, 960⟩ = false ∧
    TimeRange.overlaps_with ⟨840, 900⟩ ⟨900, 960⟩ = true ∧
    TimeRange.find_intersection ⟨840, 900⟩ ⟨900, 960⟩ = some ⟨900, 900⟩ ∧
    TimeRange.is_overnight ⟨900, 900⟩ = true ∧
    TimeRange.duration_minutes ⟨900, 900⟩ = 1440 := by decide

/-- C1: processing the valid ranges 00:00–01:00, 02:00–03:00 and the
overnight 23:00–00:30 through the constructor's sort-and-sweep leaves all
three in the output, where the first and the last overlap (both contain
00:00–00:30): the resulting window list is not pairwise non-overlapping. -/
theorem processWindows_overnight_mix_bug :
    (∀ r ∈ [(⟨0, 60⟩ : TimeRange), ⟨120, 180⟩, ⟨1380, 30⟩], r.Valid) ∧
    processWindows [⟨0, 60⟩, ⟨120, 180⟩, ⟨1380, 30⟩] =
      .ok [⟨0, 60⟩, ⟨120, 180⟩, ⟨1380, 30⟩] ∧
    TimeRange.overlaps_with ⟨0, 60⟩ ⟨1380, 30⟩ = true := by decide

/-! Lemmas towards day- and week-level self-intersection. -/

theorem is_adjacent_symm (a b : TimeRange) :
    a.is_adjacent_to b = b.is_adjacent_to a := by
  cases h1 : a.is_overnight <;> cases h2 : b.is_overnight <;>
    simp [TimeRange.is_adjacent_to, h1, h2]
  rw [Bool.eq_iff_iff]
  simp
  constructor
  · intro h
    rcases h with h | h
    · exact Or.inr h.symm
    · exact Or.inl h.symm
  · intro h
    rcases h with h | h
    · exact Or.inr h.symm
    · exact Or.inl h.symm

theorem find_intersection_self (a : TimeRange) (ha : a.Valid) :
    a.find_intersection a = some a := by
  have hov := overlaps_self a
  cases hoa : a.is_overnight
  · have hd : 30 ≤ a.end_time - a.start_time := by
      have h := ha.2.2
      rw [duration_of_regular a hoa] at h
      exact h
    simp [TimeRange.find_intersection, hov, hoa, create_self a ha]
  · simp [TimeRange.find_intersection, hov, hoa]

theorem find_intersection_of_no_overlap (a b : TimeRange)
    (h : a.overlaps_with b = false) : a.find_intersection b = none := by
  simp [TimeRange.find_intersection, h]

theorem insertByStart_of_le (w : TimeRange) (acc : List TimeRange)
    (h : ∀ x ∈ acc, x.start_time ≤ w.start_time) :
    insertByStart w acc = acc ++ [w] := by
  induction acc with
  | nil => rfl
  | cons x xs ih =>
    unfold insertByStart
    rw [if_pos (h x (List.mem_cons_self x xs))]
    rw [ih (fun y hy => h y (List.mem_cons_of_mem x hy))]
    rfl

theorem foldl_insertByStart_sorted (p : List TimeRange) :
    ∀ acc : List TimeRange,
    (∀ x ∈ acc, ∀ y ∈ p, x.start_time ≤ y.start_time) →
    p.Pairwise (fun a b => a.start_time ≤ b.start_time) →
    p.foldl (fun acc w => insertByStart w acc) acc = acc ++ p := by
  induction p with
  | nil =>
    intro acc _ _
    simp
  | cons a p ih =>
    intro acc hacc hpair
    have hpc := List.pairwise_cons.mp hpair
    rw [List.foldl_cons]
    rw [insertByStart_of_le a acc
      (fun x hx => hacc x hx a (List.mem_cons_self a p))]
    rw [ih (acc ++ [a]) ?_ hpc.2]
    · simp
    · intro x hx y hy
      rcases List.mem_append.mp hx with h | h
      · exact hacc x h y (List.mem_cons_of_mem a hy)
      · have hxa : x = a := by simpa using h
        subst hxa
        exact hpc.1 y hy

theorem sortByStart_of_sorted (p : List TimeRange)
    (hp : p.Pairwise (fun a b => a.start_time ≤ b.start_time)) :
    sortByStart p = p := by
  unfold sortByStart
  rw [foldl_insertByStart_sorted p [] (by simp) hp]
  simp

theorem mergeSweep_of_chain (rest : List TimeRange) :
    ∀ current : TimeRange,
    List.Chain' (fun a b =>
        a.overlaps_with b = false ∧ a.is_adjacent_to b = false)
      (current :: rest) →
    mergeSweep current rest = .ok (current :: rest) := by
  induction rest with
  | nil =>
    intro c _
    rfl
  | cons next rest ih =>
    intro c hch
    have h1 := (List.chain'_cons.mp hch).1
    have h2 := (List.chain'_cons.mp hch).2
    have hmerge : c.merge next = .ok none := by
      simp [TimeRange.merge, h1.1, h1.2]
    unfold mergeSweep
    rw [hmerge, ih next h2]
    rfl

theorem processWindows_of_normal (p : List TimeRange)
    (hn : NormalizedWindows p) : processWindows p = .ok p := by
  unfold processWindows
  rw [sortByStart_of_sorted p hn.1]
  cases p with
  | nil => rfl
  | cons x xs => exact mergeSweep_of_chain xs x hn.2.chain'

theorem filterMap_intersections_single (a : TimeRange) (ha : a.Valid)
    (q : List TimeRange) (hno : ∀ b ∈ q, b ≠ a → a.overlaps_with b = false)
    (hmem : a ∈ q) (hnd : q.Nodup) :
    q.filterMap (fun b => a.find_intersection b) = [a] := by
  induction q with
  | nil => cases hmem
  | cons b q ih =>
    rw [List.filterMap_cons]
    by_cases hba : b = a
    · subst hba
      rw [find_intersection_self b ha]
      have hq : q.filterMap (fun c => b.find_intersection c) = [] := by
        rw [List.filterMap_eq_nil_iff]
        intro c hc
        have hcb : c ≠ b := by
          intro he
          subst he
          exact (List.nodup_cons.mp hnd).1 hc
        exact find_intersection_of_no_overlap b c
          (hno c (List.mem_cons_of_mem b hc) hcb)
      rw [hq]
    · have hfb : a.find_intersection b = none :=
        find_intersection_of_no_overlap a b
          (hno b (List.mem_cons_self b q) hba)
      rw [hfb]
      apply ih
      · intro c hc hca
        exact hno c (List.mem_cons_of_mem b hc) hca
      · rcases List.mem_cons.mp hmem with h | h
        · exact absurd h.symm hba
        · exact h
      · exact (List.nodup_cons.mp hnd).2

theorem flatMap_eq_self_of_singleton (l : List TimeRange)
    (g : TimeRange → List TimeRange) (h : ∀ a ∈ l, g a = [a]) :
    l.flatMap g = l := by
  induction l with
  | nil => rfl
  | cons a l ih =>
    rw [List.flatMap_cons, h a (List.mem_cons_self a l),
      ih (fun b hb => h b (List.mem_cons_of_mem a hb))]
    rfl

theorem allPairsIntersections_self (p : List TimeRange)
    (hv : ∀ r ∈ p, r.Valid)
    (hnt : p.Pairwise (fun a b =>
      a.overlaps_with b = false ∧ a.is_adjacent_to b = false)) :
    allPairsIntersections p p = p := by
  have hsym : Symmetric (fun a b : TimeRange =>
      a.overlaps_with b = false ∧ a.is_adjacent_to b = false) := by
    intro x y hxy
    refine ⟨?_, ?_⟩
    · rw [overlaps_symm]
      exact hxy.1
    · rw [is_adjacent_symm]
      exact hxy.2
  have hnd : p.Nodup := by
    refine List.Pairwise.imp ?_ hnt
    intro x y hxy heq
    subst heq
    rw [overlaps_self x] at hxy
    exact absurd hxy.1 (by simp)
  unfold allPairsIntersections
  apply flatMap_eq_self_of_singleton
  intro a hamem
  apply filterMap_intersections_single a (hv a hamem) p ?_ hamem hnd
  intro b hb hba
  exact (List.Pairwise.forall hsym hnt hamem hb (fun h => hba h.symm)).1

theorem intersect_self_of_normalized (dw : DeliveryWindow)
    (hv : ∀ r ∈ dw.windows, r.Valid)
    (hn : NormalizedWindows dw.windows) :
    dw.intersect_with dw = .ok ⟨dw.day, dw.windows⟩ := by
  unfold DeliveryWindow.intersect_with
  rw [if_neg (by simp)]
  cases hcl : dw.is_closed
  · rw [if_neg (by simp [hcl])]
    unfold DeliveryWindow.make
    rw [allPairsIntersections_self dw.windows hv hn.2]
    rw [processWindows_of_normal dw.windows hn]
    rfl
  · rw [if_pos (by simp [hcl])]
    have hempty : dw.windows = [] := by
      unfold DeliveryWindow.is_closed at hcl
      simpa using hcl
    rw [hempty]

/-- C3 counterexample: the `DeliveryWindow` constructor applied to the
valid ranges 00:00–01:00, 05:00–06:40 and the overnight 23:00–05:50
produces the window list 00:00–01:00, 23:00–05:50 (the middle range is
absorbed into the overnight one), and intersecting the resulting weekly
schedule with itself collapses Monday to the single window 23:00–05:50:
the schedule is not reproduced. -/
theorem weekly_intersect_self_not_idempotent_cex :
    (∀ r ∈ [(⟨0, 60⟩ : TimeRange), ⟨300, 400⟩, ⟨1380, 350⟩], r.Valid) ∧
    DeliveryWindow.make .monday [⟨0, 60⟩, ⟨300, 400⟩, ⟨1380, 350⟩] =
      .ok ⟨.monday, [⟨0, 60⟩, ⟨1380, 350⟩]⟩ ∧
    ((WeeklyDeliveryWindow.make
          [(.monday, ⟨.monday, [⟨0, 60⟩, ⟨1380, 350⟩]⟩)]).intersect_with
        (WeeklyDeliveryWindow.make
          [(.monday, ⟨.monday, [⟨0, 60⟩, ⟨1380, 350⟩]⟩)])).map
      (fun w2 => (w2.schedule .monday).windows) = .ok [⟨1380, 350⟩] ∧
    ((WeeklyDeliveryWindow.make
        [(.monday, ⟨.monday, [⟨0, 60⟩, ⟨1380, 350⟩]⟩)]).schedule
          .monday).windows = [⟨0, 60⟩, ⟨1380, 350⟩] ∧
    ([(⟨1380, 350⟩ : TimeRange)] ≠ [⟨0, 60⟩, ⟨1380, 350⟩]) := by decide

/-- C3 (amended): intersecting a `WeeklyDeliveryWindow` with itself
returns a schedule with the same windows list on every day, provided each
day's windows satisfy the intended normalization invariant (sorted by
start time, pairwise non-overlapping and non-adjacent) — the invariant the
constructor is supposed to establish but fails to under mixed overnight
input. -/
theorem weekly_intersect_self_idempotent (w : WeeklyDeliveryWindow)
    (hv : ∀ d, ∀ r ∈ (w.schedule d).windows, r.Valid)
    (hn : ∀ d, NormalizedWindows (w.schedule d).windows) :
    ∃ w2, w.intersect_with w = .ok w2 ∧
      ∀ d, (w2.schedule d).windows = (w.schedule d).windows := by
  have h1 := intersect_self_of_normalized (w.schedule .monday)
    (hv .monday) (hn .monday)
  have h2 := intersect_self_of_normalized (w.schedule .tuesday)
    (hv .tuesday) (hn .tuesday)
  have h3 := intersect_self_of_normalized (w.schedule .wednesday)
    (hv .wednesday) (hn .wednesday)
  have h4 := intersect_self_of_normalized (w.schedule .thursday)
    (hv .thursday) (hn .thursday)
  have h5 := intersect_self_of_normalized (w.schedule .friday)
    (hv .friday) (hn .friday)
  have h6 := intersect_self_of_normalized (w.schedule .saturday)
    (hv .saturday) (hn .saturday)
  have h7 := intersect_self_of_normalized (w.schedule .sunday)
    (hv .sunday) (hn .sunday)
  refine ⟨⟨fun day => match day with
      | .monday => w.schedule .monday
      | .tuesday => w.schedule .tuesday
      | .wednesday => w.schedule .wednesday
      | .thursday => w.schedule .thursday
      | .friday => w.schedule .friday
      | .saturday => w.schedule .saturday
      | .sunday => w.schedule .sunday⟩, ?_, ?_⟩
  · unfold WeeklyDeliveryWindow.intersect_with
    rw [h1, h2, h3, h4, h5, h6, h7]
    rfl
  · intro d
    cases d <;> rfl

/-- Witness for `weekly_intersect_self_idempotent` at a weekly schedule
whose Monday has the windows 10:00–14:00 and 16:00–22:00 and whose other
days are closed. -/
theorem weekly_intersect_self_idempotent_witness :
    ∃ w2, (WeeklyDeliveryWindow.make
        [(.monday, ⟨.monday, [⟨600, 840⟩, ⟨960, 1320⟩]⟩)]).intersect_with
          (WeeklyDeliveryWindow.make
            [(.monday, ⟨.monday, [⟨600, 840⟩, ⟨960, 1320⟩]⟩)]) = .ok w2 ∧
      ∀ d, (w2.schedule d).windows =
        ((WeeklyDeliveryWindow.make
          [(.monday, ⟨.monday, [⟨600, 840⟩, ⟨960, 1320⟩]⟩)]).schedule
            d).windows :=
  weekly_intersect_self_idempotent
    (WeeklyDeliveryWindow.make
      [(.monday, ⟨.monday, [⟨600, 840⟩, ⟨960, 1320⟩]⟩)])
    (by intro d; cases d <;> decide)
    (by intro d; cases d <;> decide)

/-- C7: converting the payload with `monday: [{"open": 72000}]` and
`tuesday: [{"close": 3600}]` stitches the overnight pair across the day
boundary: Monday's window is exactly one `TimeRange` from 20:00 (minute
1200) to 01:00 (minute 60), which is overnight, while Tuesday stays
closed. -/
theorem converter_overnight_stitching_concrete :
    (convert_to_weekly_delivery_window
        [("monday", [⟨some 72000, none⟩]),
          ("tuesday", [⟨none, some 3600⟩])]).map
      (fun w => ((w.schedule .monday).windows,
        (w.schedule .tuesday).windows)) = .ok ([⟨1200, 60⟩], []) ∧
    TimeRange.is_overnight ⟨1200, 60⟩ = true ∧
    (convert_to_weekly_delivery_window
        [("monday", [⟨some 72000, none⟩]),
          ("tuesday", [⟨none, some 3600⟩])]).map
      (fun w => (w.schedule .tuesday).is_closed) = .ok true := by decide

/-! Lemmas towards totality of the converter. -/

theorem from_unix_seconds_lt (o : Int) (t : Nat)
    (h : Time.from_unix_seconds o = some t) : t < 1440 := by
  unfold Time.from_unix_seconds Time.from_minutes at h
  split at h
  · split at h
    · injection h with h2
      omega
    · cases h
  · cases h

theorem create_valid (s e : Nat) (r : TimeRange) (hs : s < 1440)
    (he : e < 1440) (h : TimeRange.create s e = some r) : r.Valid := by
  have h2 : (if MINIMUM_DURATION_MINUTES ≤
      TimeRange.duration_minutes ⟨s, e⟩ then
      some (⟨s, e⟩ : TimeRange) else none) = some r := h
  split at h2
  · injection h2 with h3
    subst h3
    exact ⟨hs, he, by assumption⟩
  · cases h2

theorem mkRange_valid (o c : Int) (r : TimeRange)
    (h : mkRange o c = some r) : r.Valid := by
  unfold mkRange at h
  cases hst : Time.from_unix_seconds o with
  | none =>
    rw [hst] at h
    cases h
  | some st =>
    rw [hst] at h
    cases hen : Time.from_unix_seconds c with
    | none =>
      rw [hen] at h
      cases h
    | some en =>
      rw [hen] at h
      exact create_valid st en r (from_unix_seconds_lt o st hst)
        (from_unix_seconds_lt c en hen) h

theorem processDayAux_valid (tws : List Event) (idxs : List Nat) :
    ∀ (processed : List Nat) (acc : List TimeRange),
    (∀ r ∈ acc, r.Valid) →
    ∀ r ∈ processDayAux tws idxs processed acc, r.Valid := by
  induction idxs with
  | nil =>
    intro processed acc hacc r hr
    exact hacc r hr
  | cons i is ih =>
    intro processed acc hacc r hr
    simp only [processDayAux] at hr
    split at hr
    · exact ih _ _ hacc r hr
    · split at hr
      · exact ih _ _ hacc r hr
      · split at hr
        · exact ih _ _ hacc r hr
        · split at hr
          · exact ih _ _ hacc r hr
          · split at hr
            · next tr htr =>
              refine ih _ _ ?_ r hr
              intro x hx
              rcases List.mem_append.mp hx with hxm | hxm
              · exact hacc x hxm
              · have hx2 : x = tr := by simpa using hxm
                subst hx2
                exact mkRange_valid _ _ _ htr
            · exact ih _ _ hacc r hr

theorem process_day_windows_valid (tws : List Event) :
    ∀ r ∈ process_day_windows tws, r.Valid :=
  processDayAux_valid tws (List.range tws.length) [] [] (by simp)

theorem merge_ok (a b : TimeRange) (ha : a.Valid) (hb : b.Valid) :
    ∃ o, a.merge b = .ok o ∧ ∀ r, o = some r → r.Valid := by
  cases hcase : (a.overlaps_with b || a.is_adjacent_to b) with
  | false =>
    refine ⟨none, ?_, by intro r h; cases h⟩
    have h12 := Bool.or_eq_false_iff.mp hcase
    exact ((merge_cases a b ha hb).1).mpr h12
  | true =>
    have hor := Bool.or_eq_true_iff.mp hcase
    obtain ⟨p1, p2, p3, p4⟩ := (merge_cases a b ha hb).2 hor
    cases hoa : a.is_overnight <;> cases hob : b.is_overnight
    · refine ⟨some ⟨min a.start_time b.start_time,
        max a.end_time b.end_time⟩, p4 hoa hob, ?_⟩
      intro r hr
      injection hr with hr
      subst hr
      have hc := create_min_max a b ha hb hoa hob
      have hmin : min a.start_time b.start_time < 1440 := by
        have ha1 := ha.1
        have hb1 := hb.1
        omega
      have hmax : max a.end_time b.end_time < 1440 := by
        have ha2 := ha.2.1
        have hb2 := hb.2.1
        omega
      exact create_valid _ _ _ hmin hmax hc
    · refine ⟨some b, p2 hoa hob, ?_⟩
      intro r hr
      injection hr with hr
      subst hr
      exact hb
    · refine ⟨some a, p1 hoa hob, ?_⟩
      intro r hr
      injection hr with hr
      subst hr
      exact ha
    · refine ⟨some (if b.duration_minutes ≤ a.duration_minutes then a else b),
        p3 hoa hob, ?_⟩
      intro r hr
      injection hr with hr
      subst hr
      split
      · exact ha
      · exact hb

theorem mergeSweep_ok (rest : List TimeRange) :
    ∀ current : TimeRange, current.Valid → (∀ r ∈ rest, r.Valid) →
    ∃ out, mergeSweep current rest = .ok out ∧ ∀ r ∈ out, r.Valid := by
  induction rest with
  | nil =>
    intro current hcur _
    refine ⟨[current], rfl, ?_⟩
    intro r hr
    have h : r = current := by simpa using hr
    subst h
    exact hcur
  | cons next rest ih =>
    intro current hcur hrest
    have hnext : next.Valid := hrest next (List.mem_cons_self next rest)
    have htail : ∀ r ∈ rest, r.Valid :=
      fun r hr => hrest r (List.mem_cons_of_mem next hr)
    obtain ⟨o, ho, hov⟩ := merge_ok current next hcur hnext
    cases o with
    | some m =>
      obtain ⟨out, hout, houtv⟩ := ih m (hov m rfl) htail
      refine ⟨out, ?_, houtv⟩
      unfold mergeSweep
      rw [ho]
      exact hout
    | none =>
      obtain ⟨out, hout, houtv⟩ := ih next hnext htail
      refine ⟨current :: out, ?_, ?_⟩
      · unfold mergeSweep
        rw [ho]
        dsimp only
        rw [hout]
        rfl
      · intro r hr
        rcases List.mem_cons.mp hr with h | h
        · subst h
          exact hcur
        · exact houtv r h

theorem insertByStart_mem (w x : TimeRange) (acc : List TimeRange) :
    x ∈ insertByStart w acc → x = w ∨ x ∈ acc := by
  induction acc with
  | nil =>
    intro h
    simp [insertByStart] at h
    exact Or.inl h
  | cons y ys ih =>
    intro h
    unfold insertByStart at h
    split at h
    · rcases List.mem_cons.mp h with h2 | h2
      · exact Or.inr (List.mem_cons.mpr (Or.inl h2))
      · rcases ih h2 with h3 | h3
        · exact Or.inl h3
        · exact Or.inr (List.mem_cons.mpr (Or.inr h3))
    · rcases List.mem_cons.mp h with h2 | h2
      · exact Or.inl h2
      · exact Or.inr h2

theorem sortByStart_mem (l : List TimeRange) (x : TimeRange) :
    x ∈ sortByStart l → x ∈ l := by
  unfold sortByStart
  suffices h : ∀ acc : List TimeRange,
      x ∈ l.foldl (fun acc w => insertByStart w acc) acc →
      x ∈ acc ∨ x ∈ l by
    intro hx
    rcases h [] hx with h2 | h2
    · cases h2
    · exact h2
  induction l with
  | nil =>
    intro acc hx
    exact Or.inl hx
  | cons a l ih =>
    intro acc hx
    rw [List.foldl_cons] at hx
    rcases ih (insertByStart a acc) hx with h2 | h2
    · rcases insertByStart_mem a x acc h2 with h3 | h3
      · exact Or.inr (by simp [h3])
      · exact Or.inl h3
    · exact Or.inr (List.mem_cons_of_mem a h2)

theorem processWindows_ok (l : List TimeRange) (hv : ∀ r ∈ l, r.Valid) :
    ∃ out, processWindows l = .ok out ∧ ∀ r ∈ out, r.Valid := by
  have hsv : ∀ r ∈ sortByStart l, r.Valid :=
    fun r hr => hv r (sortByStart_mem l r hr)
  unfold processWindows
  cases hs : sortByStart l with
  | nil => exact ⟨[], rfl, by simp⟩
  | cons x xs =>
    rw [hs] at hsv
    exact mergeSweep_ok xs x (hsv x (List.mem_cons_self x xs))
      (fun r hr => hsv r (List.mem_cons_of_mem x hr))

theorem make_ok (day : DayOfWeek) (l : List TimeRange)
    (hv : ∀ r ∈ l, r.Valid) :
    ∃ dw, DeliveryWindow.make day l = .ok dw ∧
      ∀ r ∈ dw.windows, r.Valid := by
  obtain ⟨out, hout, houtv⟩ := processWindows_ok l hv
  refine ⟨⟨day, out⟩, ?_, houtv⟩
  unfold DeliveryWindow.make
  rw [hout]
  rfl

theorem handleNamedDays_ok (data : List (String × List Event)) :
    ∀ sched : DayOfWeek → DeliveryWindow,
    (∀ d, ∀ r ∈ (sched d).windows, r.Valid) →
    ∃ out, handleNamedDays data sched = .ok out ∧
      ∀ d, ∀ r ∈ (out d).windows, r.Valid := by
  induction data with
  | nil =>
    intro sched hs
    exact ⟨sched, rfl, hs⟩
  | cons entry rest ih =>
    intro sched hs
    unfold handleNamedDays
    cases hmap : dayMapping (lowerString entry.1) with
    | none => exact ih sched hs
    | some d =>
      dsimp only
      by_cases hemp : (process_day_windows entry.2).isEmpty = true
      · rw [if_pos hemp]
        exact ih sched hs
      · rw [if_neg hemp]
        obtain ⟨dw, hdw, hdwv⟩ :=
          make_ok d (process_day_windows entry.2)
            (process_day_windows_valid entry.2)
        rw [hdw]
        refine ih (updSchedule sched d dw) ?_
        intro d2 r hr
        unfold updSchedule at hr
        split at hr
        · exact hdwv r hr
        · exact hs d2 r hr

/-- C8: on every well-typed payload — any association of string keys to
event lists, with arbitrary (possibly out-of-range, out-of-order,
duplicated or unbalanced) integer timestamps — the converter returns a
`WeeklyDeliveryWindow` without raising: every exception a constructor
could raise is either caught inside the converter or impossible because
only validated ranges reach the unguarded `DeliveryWindow` constructor
call. -/
theorem convert_total (data : List (String × List Event)) :
    ∃ w, convert_to_weekly_delivery_window data = .ok w := by
  obtain ⟨out, hout, _⟩ := handleNamedDays_ok data
    (fun d => DeliveryWindow.closed d) (by intro d r hr; cases hr)
  refine ⟨⟨(stitchAll data out).1⟩, ?_⟩
  unfold convert_to_weekly_delivery_window handle_all_days
  rw [hout]

/-- Witness for `convert_total` at a payload with an unknown day key, an
out-of-range timestamp and an unbalanced close. -/
theorem convert_total_witness :
    ∃ w, convert_to_weekly_delivery_window
      [("someday", [⟨some 3600, none⟩]),
        ("monday", [⟨some 90000, some 1⟩, ⟨none, some 7200⟩])] = .ok w :=
  convert_total
    [("someday", [⟨some 3600, none⟩]),
      ("monday", [⟨some 90000, some 1⟩, ⟨none, some 7200⟩])]

/-! Lemmas and theorems about the orchestration use case. -/

theorem executeTaskSafely_window (o : TaskOutcome) (st : String)
    (src : ErrorSource) (errs : List ServiceError)
    (stats : List (String × String)) :
    (executeTaskSafely o st src errs stats).1 = taskWindow o := by
  cases o with
  | success w => rfl
  | circuitBreakerOpen => rfl
  | apiRequestFailure sc =>
    by_cases h : sc = 404 <;> simp [executeTaskSafely, taskWindow, h]
  | unexpectedFailure => rfl

/-- C9: the use case never propagates an exception: a 404 from the venue
source is downgraded to an empty schedule with a warning-severity error and
the intersection still proceeds; a circuit-breaker-open or other upstream
failure aborts that side with an error-severity entry and an empty result
window; and a failure inside the week-level intersection is caught and
reported as a domain-logic `INTERSECTION_ERROR`.  Totality of `execute`
reflects that every `except` branch of the source is modelled. -/
theorem execute_error_policy (venue courier : TaskOutcome) :
    (∀ cw dw, venue = .apiRequestFailure 404 → courier = .success cw →
      WeeklyDeliveryWindow.empty.intersect_with cw = .ok dw →
      execute venue courier =
        ⟨dw, [⟨"VENUE_NOT_FOUND", .venue_service, .warning⟩],
          [("service_statuses",
            [("venue_service", "not_found"),
              ("courier_service", "success")])]⟩) ∧
    (venue = .circuitBreakerOpen →
      (execute venue courier).delivery_window = WeeklyDeliveryWindow.empty ∧
      (⟨"VENUE_SERVICE_UNAVAILABLE", .venue_service, .error⟩ : ServiceError) ∈
        (execute venue courier).errors) ∧
    (∀ sc, venue = .apiRequestFailure sc → sc ≠ 404 →
      (execute venue courier).delivery_window = WeeklyDeliveryWindow.empty ∧
      (⟨"VENUE_SERVICE_ERROR", .venue_service, .error⟩ : ServiceError) ∈
        (execute venue courier).errors) ∧
    (∀ vw cw e, venue = .success vw → courier = .success cw →
      vw.intersect_with cw = .error e →
      execute venue courier =
        ⟨WeeklyDeliveryWindow.empty,
          [⟨"INTERSECTION_ERROR", .domain_logic, .error⟩], []⟩) := by
  have hs1 : upperString "venue" ++ "_NOT_FOUND" = "VENUE_NOT_FOUND" := by
    decide
  have hs2 : upperString "venue" ++ "_SERVICE_UNAVAILABLE" =
      "VENUE_SERVICE_UNAVAILABLE" := by decide
  have hs3 : upperString "venue" ++ "_SERVICE_ERROR" =
      "VENUE_SERVICE_ERROR" := by decide
  refine ⟨?_, ?_, ?_, ?_⟩
  · intro cw dw h1 h2 hint
    subst h1
    subst h2
    simp [execute, executeTaskSafely, hint, hs1]
  · intro h1
    subst h1
    cases courier with
    | success w => simp [execute, executeTaskSafely, hs2]
    | circuitBreakerOpen => simp [execute, executeTaskSafely, hs2]
    | apiRequestFailure sc =>
      by_cases h404 : sc = 404 <;>
        simp [execute, executeTaskSafely, hs2, h404]
    | unexpectedFailure => simp [execute, executeTaskSafely, hs2]
  · intro sc h1 hne
    subst h1
    cases courier with
    | success w => simp [execute, executeTaskSafely, hne, hs3]
    | circuitBreakerOpen => simp [execute, executeTaskSafely, hne, hs3]
    | apiRequestFailure sc2 =>
      by_cases h404 : sc2 = 404 <;>
        simp [execute, executeTaskSafely, hne, hs3, h404]
    | unexpectedFailure => simp [execute, executeTaskSafely, hne, hs3]
  · intro vw cw e h1 h2 hint
    subst h1
    subst h2
    simp [execute, executeTaskSafely, hint]

/-- Witness for `execute_error_policy`: the venue-404 path, the
circuit-open path and the intersection-failure path, each at concrete
outcomes (the last one with a weekly schedule whose Monday entry carries a
mismatched day, which makes the real intersection raise
`IncompatibleDaysError`). -/
theorem execute_error_policy_witness :
    execute (.apiRequestFailure 404) (.success WeeklyDeliveryWindow.empty) =
      ⟨⟨fun day => match day with
          | .monday => ⟨.monday, []⟩
          | .tuesday => ⟨.tuesday, []⟩
          | .wednesday => ⟨.wednesday, []⟩
          | .thursday => ⟨.thursday, []⟩
          | .friday => ⟨.friday, []⟩
          | .saturday => ⟨.saturday, []⟩
          | .sunday => ⟨.sunday, []⟩⟩,
        [⟨"VENUE_NOT_FOUND", .venue_service, .warning⟩],
        [("service_statuses",
          [("venue_service", "not_found"),
            ("courier_service", "success")])]⟩ ∧
    ((execute .circuitBreakerOpen .unexpectedFailure).delivery_window =
        WeeklyDeliveryWindow.empty ∧
      (⟨"VENUE_SERVICE_UNAVAILABLE", .venue_service, .error⟩ : ServiceError) ∈
        (execute .circuitBreakerOpen .unexpectedFailure).errors) ∧
    execute
        (.success (WeeklyDeliveryWindow.make
          [(.monday, ⟨.tuesday, [⟨600, 840⟩]⟩)]))
        (.success WeeklyDeliveryWindow.empty) =
      ⟨WeeklyDeliveryWindow.empty,
        [⟨"INTERSECTION_ERROR", .domain_logic, .error⟩], []⟩ :=
  ⟨(execute_error_policy (.apiRequestFailure 404)
      (.success WeeklyDeliveryWindow.empty)).1
      WeeklyDeliveryWindow.empty _ rfl rfl rfl,
    (execute_error_policy .circuitBreakerOpen .unexpectedFailure).2.1 rfl,
    (execute_error_policy
      (.success (WeeklyDeliveryWindow.make
        [(.monday, ⟨.tuesday, [⟨600, 840⟩]⟩)]))
      (.success WeeklyDeliveryWindow.empty)).2.2.2
      (WeeklyDeliveryWindow.make [(.monday, ⟨.tuesday, [⟨600, 840⟩]⟩)])
      WeeklyDeliveryWindow.empty .incompatibleDays rfl rfl rfl⟩

/-- C10: the `service_statuses` metadata entry is attached only on the
fully successful path (both sides contribute a schedule — a 404 side
contributing the empty one — and the intersection succeeds); on every
early error return the metadata stays empty even though the per-source
statuses were collected. -/
theorem execute_metadata_only_on_success (venue courier : TaskOutcome) :
    (∀ vw cw dw, taskWindow venue = some vw → taskWindow courier = some cw →
      vw.intersect_with cw = .ok dw →
      ∃ stats, (execute venue courier).metadata =
        [("service_statuses", stats)]) ∧
    (taskWindow venue = none ∨ taskWindow courier = none ∨
      (∃ vw cw e, taskWindow venue = some vw ∧ taskWindow courier = some cw ∧
        vw.intersect_with cw = .error e) →
      (execute venue courier).metadata = []) := by
  constructor
  · intro vw cw dw hv hc hint
    simp only [execute]
    rw [executeTaskSafely_window, executeTaskSafely_window, hv, hc]
    dsimp only
    rw [hint]
    exact ⟨_, rfl⟩
  · intro h
    rcases h with hv | hc | ⟨vw, cw, e, hv, hc, hint⟩
    · simp only [execute]
      rw [executeTaskSafely_window, executeTaskSafely_window, hv]
      cases hcw : taskWindow courier <;> rfl
    · simp only [execute]
      rw [executeTaskSafely_window, executeTaskSafely_window, hc]
      cases hvw : taskWindow venue <;> rfl
    · simp only [execute]
      rw [executeTaskSafely_window, executeTaskSafely_window, hv, hc]
      dsimp only
      rw [hint]

/-- Witness for `execute_metadata_only_on_success`: metadata carries the
statuses on the double-success path and stays empty when the venue task
fails unexpectedly. -/
theorem execute_metadata_only_on_success_witness :
    (∃ stats, (execute (.success WeeklyDeliveryWindow.empty)
        (.success WeeklyDeliveryWindow.empty)).metadata =
      [("service_statuses", stats)]) ∧
    (execute .unexpectedFailure
      (.success WeeklyDeliveryWindow.empty)).metadata = [] :=
  ⟨(execute_metadata_only_on_success (.success WeeklyDeliveryWindow.empty)
      (.success WeeklyDeliveryWindow.empty)).1
      WeeklyDeliveryWindow.empty WeeklyDeliveryWindow.empty
      ⟨fun day => match day with
        | .monday => ⟨.monday, []⟩
        | .tuesday => ⟨.tuesday, []⟩
        | .wednesday => ⟨.wednesday, []⟩
        | .thursday => ⟨.thursday, []⟩
        | .friday => ⟨.friday, []⟩
        | .saturday => ⟨.saturday, []⟩
        | .sunday => ⟨.sunday, []⟩⟩ rfl rfl rfl,
    (execute_metadata_only_on_success .unexpectedFailure
      (.success WeeklyDeliveryWindow.empty)).2 (Or.inl rfl)⟩

end DeliveryHours

